import Mathlib

/-!
Shallow embedding of `cli.py` from the `cli-changelog` repository.

The embedding covers the commit-record data model, the parsing of the raw
`git log` output performed in `get_git_commits`, the scoring/selection
heuristic `preprocess_commits` (including the semantics of CPython's
`list.sort(reverse=True)` on `(score, dict)` tuples, whose comparison can
raise `TypeError`), and the observable control flow of
`generate_changelog_with_claude` and `main`, modelled as event traces.
Theorems about the specification's claims follow the definitions.
-/

namespace GitChangelog

/-- A parsed commit record: the dict built in `get_git_commits` with keys
`hash`, `author`, `date`, `subject`, `body`. -/
structure Commit where
  hash : String
  author : String
  date : String
  subject : String
  body : String
deriving DecidableEq

/-! ### Python string primitives used by the script -/

/-- Python `str.lower` (ASCII case folding, which covers every keyword the
script matches against). -/
def pyLower (s : String) : String := ⟨s.data.map Char.toLower⟩

/-- The characters Python `str.strip()` removes (ASCII whitespace). -/
def isPySpace (c : Char) : Bool :=
  c == ' ' || c == '\t' || c == '\n' || c == '\r' || c == '\x0b' || c == '\x0c'

/-- Python `str.strip()`: remove leading and trailing whitespace. -/
def pyStrip (s : String) : String :=
  ⟨((s.data.dropWhile isPySpace).reverse.dropWhile isPySpace).reverse⟩

/-- Python `pat in s` on strings: substring containment. -/
def strContainsSub (s pat : String) : Bool :=
  s.data.tails.any (fun t => pat.data.isPrefixOf t)

/-- The number of positions of `s` at which `pat` occurs, used to state the
occurrence-count claims about keyword matching. -/
def occurrenceCount (s pat : String) : Nat :=
  s.data.tails.countP (fun t => pat.data.isPrefixOf t)

/-- Python `s.split(sep)` for a non-empty separator, on character lists.
The `Nat` argument is fuel (instantiated with the length of the input),
which keeps the definition structurally recursive and kernel-reducible. -/
def pySplitAux (sep : List Char) : Nat → List Char → List (List Char)
  | 0, s => [s]
  | _ + 1, [] => [[]]
  | fuel + 1, c :: rest =>
    if !sep.isEmpty && sep.isPrefixOf (c :: rest) then
      [] :: pySplitAux sep fuel ((c :: rest).drop sep.length)
    else
      match pySplitAux sep fuel rest with
      | [] => [[c]]
      | t :: ts => (c :: t) :: ts

/-- Python `s.split(sep)`. -/
def pySplit (s sep : String) : List String :=
  (pySplitAux sep.data s.data.length s.data).map String.mk

/-- Python `s.replace(old, new)` on character lists (leftmost,
non-overlapping), with the same fuel scheme as `pySplitAux`. -/
def pyReplaceAux (old new : List Char) : Nat → List Char → List Char
  | 0, s => s
  | _ + 1, [] => []
  | fuel + 1, c :: rest =>
    if !old.isEmpty && old.isPrefixOf (c :: rest) then
      new ++ pyReplaceAux old new fuel ((c :: rest).drop old.length)
    else
      c :: pyReplaceAux old new fuel rest

/-- Python `s.replace(old, new)`. -/
def pyReplace (s old new : String) : String :=
  ⟨pyReplaceAux old.data new.data s.data.length s.data⟩

/-! ### `get_git_commits`: parsing the raw `git log` output -/

/-- The sentinel line placed between commits by the `git log` format string. -/
def sentinel : String := "----------"

/-- One iteration of the parsing loop in `get_git_commits`: strip the chunk,
split it into lines, and build a commit dict when at least four lines are
present; otherwise the chunk yields nothing. -/
def parseChunk (chunk : String) : Option Commit :=
  if h : 4 ≤ (pySplit (pyStrip chunk) "\n").length then
    some
      { hash := (pySplit (pyStrip chunk) "\n").get ⟨0, by omega⟩
        author := (pySplit (pyStrip chunk) "\n").get ⟨1, by omega⟩
        date := (pySplit (pyStrip chunk) "\n").get ⟨2, by omega⟩
        subject := (pySplit (pyStrip chunk) "\n").get ⟨3, by omega⟩
        body :=
          if 4 < (pySplit (pyStrip chunk) "\n").length then
            String.intercalate "\n" ((pySplit (pyStrip chunk) "\n").drop 4)
          else "" }
  else none

/-- One step of the accumulating loop of `get_git_commits`: append to the
`commits` accumulator when the chunk parses, keep it unchanged otherwise. -/
def parseStep (acc : List Commit) (chunk : String) : List Commit :=
  match parseChunk chunk with
  | some c => acc ++ [c]
  | none => acc

/-- The pure parsing part of `get_git_commits`, applied to the stdout of the
`git log` invocation: split on the sentinel, drop the final segment
(`[:-1]`), then run the accumulating loop over the remaining chunks. -/
def get_git_commits_parse (stdout : String) : List Commit :=
  ((pySplit stdout sentinel).dropLast).foldl parseStep []

/-! ### `preprocess_commits`: scoring and selection -/

/-- The significance keyword list `keywords` of `preprocess_commits`. -/
def keywords : List String :=
  ["add", "added", "feature", "featured", "improve", "improved", "fix",
   "fixed", "implement", "implemented", "update", "updated", "updates",
   "support", "supported", "refactor", "refactored"]

/-- The triviality keyword list of `preprocess_commits` (named `trivial` in
the source; renamed here because `trivial` is taken in Lean). -/
def trivialKeywords : List String :=
  ["typo", "whitespace", "comment", "formatting", "format", "spacing",
   "linting"]

/-- `(commit["subject"] + commit["body"]).lower()`. -/
def loweredText (c : Commit) : String := pyLower (c.subject ++ c.body)

/-- The score computed for one commit inside `preprocess_commits`: the
character length of `subject + body`, plus 10 for each significance keyword
occurring in the lowered text, minus 15 for each triviality keyword
occurring in it. -/
def scoreCommit (c : Commit) : Int :=
  trivialKeywords.foldl
    (fun s w => if strContainsSub (loweredText c) w then s - 15 else s)
    (keywords.foldl
      (fun s w => if strContainsSub (loweredText c) w then s + 10 else s)
      ((c.subject ++ c.body).length : Int))

/-- The bonus a single significance keyword contributes to the score: 10 if
it occurs in the text at all (however many times), 0 otherwise. -/
def kwBonus (text kw : String) : Int := if strContainsSub text kw then 10 else 0

/-- Python runtime errors relevant to this program's unprotected operations. -/
inductive PyErr where
  | typeError
  | keyError
  | indexError
  | attributeError
deriving DecidableEq

/-- CPython comparison of two `(score, commit_dict)` tuples, as performed by
`scored_commits.sort(reverse=True)`: tuple `<` first locates the first
pairwise-unequal component with `==`, then compares it with `<`. Unequal
scores decide the comparison; equal scores with equal dicts make the tuples
equal (not `<`); equal scores with unequal dicts compare the dicts with `<`,
which raises `TypeError` in Python 3. -/
def pyLtScored (a b : Int × Commit) : Except PyErr Bool :=
  if a.1 < b.1 then .ok true
  else if b.1 < a.1 then .ok false
  else if a.2 = b.2 then .ok false
  else .error .typeError

/-- Insertion of one scored commit into a descending-sorted prefix, using
the fallible tuple comparison. Together with `sortDescFallible` this models
CPython's `list.sort(reverse=True)`: a comparison sort that orders the list
descending by the tuple order and propagates a comparison `TypeError`. On
every input where the comparisons it performs are total it computes the
same list as CPython, since distinct scores determine the descending order
uniquely. -/
def insertDescFallible (a : Int × Commit) :
    List (Int × Commit) → Except PyErr (List (Int × Commit))
  | [] => .ok [a]
  | b :: l =>
    match pyLtScored b a with
    | .error e => .error e
    | .ok true => .ok (a :: b :: l)
    | .ok false =>
      match insertDescFallible a l with
      | .error e => .error e
      | .ok l' => .ok (b :: l')

/-- Model of `scored_commits.sort(reverse=True)`; see `insertDescFallible`. -/
def sortDescFallible : List (Int × Commit) → Except PyErr (List (Int × Commit))
  | [] => .ok []
  | a :: l =>
    match sortDescFallible l with
    | .error e => .error e
    | .ok l' => insertDescFallible a l'

/-- `preprocess_commits(commits, max_commits=50)`: when the input exceeds the
cap, score every commit, sort the `(score, commit)` tuples descending, and
keep the first `max_commits` commits; otherwise return the input unchanged.
The `Except` result records the `TypeError` that the tuple sort can raise. -/
def preprocess_commits (commits : List Commit) (max_commits : Nat := 50) :
    Except PyErr (List Commit) :=
  if max_commits < commits.length then
    match sortDescFallible (commits.map fun c => (scoreCommit c, c)) with
    | .error e => .error e
    | .ok sorted => .ok ((sorted.take max_commits).map Prod.snd)
  else
    .ok commits

/-! ### `generate_changelog_with_claude` and `main`: JSON model and traces -/

/-- Parsed JSON values, the result of `response.json()`. -/
inductive Json where
  | null
  | bool (b : Bool)
  | num (n : Int)
  | str (s : String)
  | arr (elems : List Json)
  | obj (fields : List (String × Json))

/-- Python `j[k]` for a string key `k`: dict lookup succeeds or raises
`KeyError`; every other receiver raises `TypeError`. -/
def pyGetItemStr (j : Json) (k : String) : Except PyErr Json :=
  match j with
  | .obj fields =>
    match fields.lookup k with
    | some v => .ok v
    | none => .error .keyError
  | _ => .error .typeError

/-- Python `j[i]` for an integer index `i ≥ 0`: list and string indexing can
raise `IndexError`; a JSON dict (string keys only) raises `KeyError`; other
receivers raise `TypeError`. -/
def pyGetItemNat (j : Json) (i : Nat) : Except PyErr Json :=
  match j with
  | .arr elems =>
    match elems.get? i with
    | some v => .ok v
    | none => .error .indexError
  | .str s =>
    match s.data.get? i with
    | some ch => .ok (.str ⟨[ch]⟩)
    | none => .error .indexError
  | .obj _ => .error .keyError
  | _ => .error .typeError

/-- Python `k in j` for a string `k`: key membership for dicts, element
membership for lists, substring test for strings, `TypeError` otherwise. -/
def pyInStr (k : String) (j : Json) : Except PyErr Bool :=
  match j with
  | .obj fields => .ok (fields.any fun p => p.1 == k)
  | .arr elems =>
    .ok (elems.any fun e =>
      match e with
      | .str t => t == k
      | _ => false)
  | .str s => .ok (strContainsSub s k)
  | _ => .error .typeError

/-- An HTTP response as seen by the script: the status code, the raw body
text, and the result of `response.json()` (`none` when the body is not
valid JSON, in which case `response.json()` raises). -/
structure HttpResponse where
  status : Nat
  text : String
  jsonBody : Option Json

/-- The outcome of the single `requests.post` call: either a transport
failure (connection error or timeout, carrying no response) or a response. -/
inductive TransportOutcome where
  | failed
  | got (r : HttpResponse)

/-- Observable events of one run: the single network call, prints (with the
exact text where it is determined by the program, and dedicated
constructors where the text comes from a library exception or from
`json.dumps` of the received structure), an uncaught Python error
propagating out of `generate_changelog_with_claude`, and `sys.exit`. -/
inductive Ev where
  | netCall
  | print (s : String)
  | printApiError
  | printRespStatus (code : Nat)
  | printRespBody (body : String)
  | printRespDump (j : Json)
  | uncaught (e : PyErr)
  | exitCode (code : Nat)

/-- The `except requests.exceptions.RequestException` handler: it prints the
exception line, then prints the status code and body only when the
exception carries a response that is truthy — and `requests.Response`
truthiness is `Response.ok`, i.e. status < 400, so an `HTTPError` response
never passes the check — and finally exits with code 1. -/
def handlerTrace (excResponse : Option HttpResponse) : List Ev :=
  .printApiError ::
    match excResponse with
    | some r =>
      if r.status < 400 then
        [.printRespStatus r.status, .printRespBody r.text, .exitCode 1]
      else
        [.exitCode 1]
    | none => [.exitCode 1]

/-- The two-character string `"\\n"` (backslash, `n`) that the script
replaces with a literal newline in the returned text. -/
def escapedNewline : String := "\\n"

/-- The extraction step on the parsed JSON `result`: check `"content" in
result`; on success read `result["content"][0]["text"]`, normalize escaped
newlines and return the text; when the key is absent, print the diagnostic
and the pretty-printed dump of the structure and exit 1. Indexing or lookup
errors inside the chain are not `RequestException`s, so they propagate
uncaught. -/
def extractStep (result : Json) : List Ev × Option String :=
  match pyInStr "content" result with
  | .error e => ([.uncaught e], none)
  | .ok true =>
    match
      ((match pyGetItemStr result "content" with
        | .error e => .error e
        | .ok v =>
          match pyGetItemNat v 0 with
          | .error e => .error e
          | .ok first => pyGetItemStr first "text") : Except PyErr Json) with
    | .error e => ([.uncaught e], none)
    | .ok (.str t) => ([], some (pyReplace t escapedNewline "\n"))
    | .ok _ => ([.uncaught .attributeError], none)
  | .ok false =>
    ([.print "Unexpected API response format. Could not extract changelog.",
      .printRespDump result, .exitCode 1], none)

/-- The continuation of `generate_changelog_with_claude` after a response
whose status did not lead to `raise_for_status` raising: `response.json()`
(whose `JSONDecodeError` is a `RequestException` carrying no truthy
response, hence handled like a transport failure), then the extraction. -/
def parseContinue (r : HttpResponse) : List Ev × Option String :=
  match r.jsonBody with
  | none => (handlerTrace none, none)
  | some j => extractStep j

/-- Trace and returned text of `generate_changelog_with_claude`, as a
function of the outcome of its single `requests.post` call. A status of 400
or above prints the raw error body first; `raise_for_status` then raises
exactly for statuses in `[400, 600)`, landing in the handler. -/
def generate_changelog_with_claude (o : TransportOutcome) :
    List Ev × Option String :=
  match o with
  | .failed => (.netCall :: handlerTrace none, none)
  | .got r =>
    if 400 ≤ r.status then
      if r.status < 600 then
        (.netCall :: .print ("Error response body: " ++ r.text) ::
          handlerTrace (some r), none)
      else
        (.netCall :: .print ("Error response body: " ++ r.text) ::
          (parseContinue r).1, (parseContinue r).2)
    else
      (.netCall :: (parseContinue r).1, (parseContinue r).2)

/-- Trace of `main`, as a function of the requested count `n`, the records
produced by the history source, and the outcome of the network call: print
the fetching line; with no commits print the message and exit 0; otherwise
preprocess (whose `TypeError` would propagate uncaught), call the
requester, and print the banner and the changelog it returns. -/
def mainTrace (n : Int) (commits : List Commit) (o : TransportOutcome) :
    List Ev :=
  .print ("Fetching the last " ++ toString n ++ " commits...") ::
    if commits.isEmpty then
      [.print "No commits found.", .exitCode 0]
    else
      .print ("Found " ++ toString commits.length ++
          " commits. Generating changelog...") ::
        match preprocess_commits commits with
        | .error e => [.uncaught e]
        | .ok _ =>
          (generate_changelog_with_claude o).1 ++
            match (generate_changelog_with_claude o).2 with
            | some changelog =>
              [.print "\n===== CHANGELOG =====\n", .print changelog]
            | none => []

/-- Modelled from the spec: the external history command (`git log`, not part
of this repository) yields zero records for a non-positive requested
count. -/
def historyEmptyForNonpos (history : Int → List Commit) : Prop :=
  ∀ n : Int, n ≤ 0 → history n = []

end GitChangelog

namespace GitChangelog

/-! ### Helper lemmas about the scoring fold -/

theorem foldl_bonus_eq (p : String → Bool) (k : Int) :
    ∀ (ws : List String) (init : Int),
      ws.foldl (fun s w => if p w then s + k else s) init
        = init + k * ((ws.countP p : Nat) : Int) := by
  intro ws
  induction ws with
  | nil => intro init; simp
  | cons w ws ih =>
    intro init
    cases h : p w with
    | true =>
      simp only [List.foldl_cons, h, if_true, List.countP_cons, h, ih]
      push_cast
      ring
    | false =>
      simp only [List.foldl_cons, h, if_false, List.countP_cons, h, ih]
      simp

theorem scoreCommit_eq (c : Commit) :
    scoreCommit c =
      ((c.subject ++ c.body).length : Int)
        + 10 * (((keywords.countP fun w => strContainsSub (loweredText c) w) : Nat) : Int)
        - 15 * (((trivialKeywords.countP fun w => strContainsSub (loweredText c) w) : Nat) : Int) := by
  have hneg :
      (fun (s : Int) (w : String) =>
          if strContainsSub (loweredText c) w then s - 15 else s)
        = fun s w => if strContainsSub (loweredText c) w then s + (-15) else s := by
    funext s w
    cases h : strContainsSub (loweredText c) w <;> simp [h, sub_eq_add_neg]
  unfold scoreCommit
  rw [hneg, foldl_bonus_eq, foldl_bonus_eq]
  ring

theorem sum_map_kwBonus (text : String) :
    ∀ ws : List String,
      (ws.map fun w => kwBonus text w).sum
        = 10 * (((ws.countP fun w => strContainsSub text w) : Nat) : Int) := by
  intro ws
  induction ws with
  | nil => simp
  | cons w ws ih =>
    rw [List.map_cons, List.sum_cons, ih, List.countP_cons]
    cases h : strContainsSub text w with
    | true =>
      simp only [kwBonus, h, if_true]
      push_cast
      ring
    | false =>
      simp only [kwBonus, h, if_false]
      simp

theorem strContainsSub_iff_occurrenceCount_pos (s pat : String) :
    strContainsSub s pat = true ↔ 0 < occurrenceCount s pat := by
  unfold strContainsSub occurrenceCount
  rw [List.any_eq_true, List.countP_pos_iff]

end GitChangelog

namespace GitChangelog

/-! ### Claims about `preprocess_commits` scoring (C4, C5) -/

/-- C4: the significance bonus is added at most once per distinct keyword.
Each keyword of the significance list contributes `kwBonus`, which is 10 as
soon as the keyword occurs anywhere in the lowered `subject + body` text,
independently of the occurrence count: a text containing the keyword
exactly once receives the same bonus, 10, as a text containing it three
times, and the total score adds these per-keyword bonuses over the keyword
list. -/
theorem significance_bonus_once_per_distinct_keyword (k : String)
    (c₁ c₂ : Commit) (_hk : k ∈ keywords)
    (h1 : occurrenceCount (loweredText c₁) k = 1)
    (h3 : occurrenceCount (loweredText c₂) k = 3) :
    kwBonus (loweredText c₁) k = 10 ∧
    kwBonus (loweredText c₂) k = kwBonus (loweredText c₁) k ∧
    ∀ c : Commit,
      scoreCommit c =
        ((c.subject ++ c.body).length : Int)
          + (keywords.map fun w => kwBonus (loweredText c) w).sum
          - 15 * (((trivialKeywords.countP fun w =>
              strContainsSub (loweredText c) w) : Nat) : Int) := by
  have hc1 : strContainsSub (loweredText c₁) k = true :=
    (strContainsSub_iff_occurrenceCount_pos _ _).mpr (by omega)
  have hc2 : strContainsSub (loweredText c₂) k = true :=
    (strContainsSub_iff_occurrenceCount_pos _ _).mpr (by omega)
  refine ⟨by simp [kwBonus, hc1], by simp [kwBonus, hc1, hc2], fun c => ?_⟩
  rw [scoreCommit_eq, sum_map_kwBonus]

theorem significance_bonus_once_per_distinct_keyword_witness :
    occurrenceCount (loweredText ⟨"h1", "a", "d", "fix", ""⟩) "fix" = 1 ∧
    occurrenceCount (loweredText ⟨"h2", "a", "d", "fixfixfix", ""⟩) "fix" = 3 ∧
    kwBonus (loweredText ⟨"h1", "a", "d", "fix", ""⟩) "fix" = 10 :=
  ⟨by decide, by decide,
    (significance_bonus_once_per_distinct_keyword "fix"
      ⟨"h1", "a", "d", "fix", ""⟩ ⟨"h2", "a", "d", "fixfixfix", ""⟩
      (by decide) (by decide) (by decide)).1⟩

/-- C5 counterexample: the claim "score = length of subject+body minus 15
per distinct triviality keyword matched, and a record with all four trivial
keywords scores base − 4×15" fails on the code. A commit whose text is
"add typo" scores 8 + 10 − 15 = 3, not 8 − 15 (the significance bonus is
missing from the claimed formula), and the triviality list has seven
keywords, not four: a commit containing every trivial keyword ("format" is
a substring of "formatting") scores base − 7×15, not base − 4×15. -/
theorem score_not_length_minus_trivial_only :
    (scoreCommit ⟨"hA", "a", "d", "add typo", ""⟩ ≠
      (("add typo".length : Int))
        - 15 * (((trivialKeywords.countP fun w =>
            strContainsSub (loweredText ⟨"hA", "a", "d", "add typo", ""⟩) w) : Nat) : Int)) ∧
    scoreCommit
        ⟨"hB", "a", "d",
          "typo whitespace comment formatting spacing linting", ""⟩ ≠
      (("typo whitespace comment formatting spacing linting".length : Int))
        - 4 * 15 := by
  constructor
  · decide
  · decide

/-- C5 (amended): the score equals the character length of
`subject + body`, plus 10 per distinct significance keyword matched, minus
15 per distinct triviality keyword matched (the code's triviality set has
seven keywords, with "format" a substring of "formatting"); in particular a
record matching exactly four distinct trivial keywords and no significance
keyword has score = base − 4×15. -/
theorem score_decomposition_with_bonus (c : Commit) :
    scoreCommit c =
      ((c.subject ++ c.body).length : Int)
        + 10 * (((keywords.countP fun w =>
            strContainsSub (loweredText c) w) : Nat) : Int)
        - 15 * (((trivialKeywords.countP fun w =>
            strContainsSub (loweredText c) w) : Nat) : Int) ∧
    ((keywords.countP fun w => strContainsSub (loweredText c) w) = 0 →
      (trivialKeywords.countP fun w => strContainsSub (loweredText c) w) = 4 →
      scoreCommit c = ((c.subject ++ c.body).length : Int) - 4 * 15) := by
  refine ⟨scoreCommit_eq c, fun h0 h4 => ?_⟩
  rw [scoreCommit_eq c, h0, h4]
  norm_num

theorem score_decomposition_with_bonus_witness :
    (keywords.countP fun w =>
        strContainsSub (loweredText ⟨"hW", "a", "d",
          "typo whitespace comment spacing", ""⟩) w) = 0 ∧
    (trivialKeywords.countP fun w =>
        strContainsSub (loweredText ⟨"hW", "a", "d",
          "typo whitespace comment spacing", ""⟩) w) = 4 ∧
    scoreCommit ⟨"hW", "a", "d", "typo whitespace comment spacing", ""⟩ =
      ((((⟨"hW", "a", "d", "typo whitespace comment spacing", ""⟩ : Commit).subject ++
          (⟨"hW", "a", "d", "typo whitespace comment spacing", ""⟩ : Commit).body).length : Int))
        - 4 * 15 :=
  ⟨by decide, by decide,
    (score_decomposition_with_bonus
      ⟨"hW", "a", "d", "typo whitespace comment spacing", ""⟩).2
      (by decide) (by decide)⟩

/-! ### Claims about `preprocess_commits` selection (C1, C3) -/

/-- C1: the selector is not total. With two records of equal score but
different contents (subjects "ab" and "ba") and a cap of 1, the tuple sort
compares the commit dicts — because the scores tie — and raises
`TypeError`, contradicting the claim that `preprocess_commits` never raises,
"including when two commits receive equal scores". -/
theorem preprocess_commits_equal_scores_error :
    preprocess_commits [⟨"h1", "a", "d", "ab", ""⟩, ⟨"h2", "a", "d", "ba", ""⟩] 1
      = .error .typeError := rfl

/-- C3: when the input length is at most `max_commits`, the selector
returns the identical list unchanged. -/
theorem preprocess_commits_under_cap_id (commits : List Commit)
    (max_commits : Nat) (h : commits.length ≤ max_commits) :
    preprocess_commits commits max_commits = .ok commits := by
  unfold preprocess_commits
  rw [if_neg (by omega)]

theorem preprocess_commits_under_cap_id_witness :
    ([⟨"h1", "a", "d", "s", "b"⟩] : List Commit).length ≤ 50 ∧
    preprocess_commits [⟨"h1", "a", "d", "s", "b"⟩] =
      .ok [⟨"h1", "a", "d", "s", "b"⟩] :=
  ⟨by decide,
    preprocess_commits_under_cap_id [⟨"h1", "a", "d", "s", "b"⟩] 50 (by decide)⟩

end GitChangelog

namespace GitChangelog

/-! ### The fallible descending sort (C2) -/

theorem insertDescFallible_ok (a : Int × Commit) :
    ∀ l : List (Int × Commit),
      (∀ b ∈ l, b.1 ≠ a.1) →
      l.Pairwise (fun x y => y.1 < x.1) →
      ∃ l', insertDescFallible a l = .ok l' ∧
        l'.Perm (a :: l) ∧ l'.Pairwise (fun x y => y.1 < x.1) := by
  intro l
  induction l with
  | nil =>
    intro _ _
    exact ⟨[a], rfl, List.Perm.refl _, List.pairwise_singleton _ _⟩
  | cons b t ih =>
    intro hne hp
    have hba : b.1 ≠ a.1 := hne b (List.mem_cons_self b t)
    rw [List.pairwise_cons] at hp
    rcases lt_or_gt_of_ne hba with hlt | hgt
    · have hcmp : pyLtScored b a = .ok true := by
        unfold pyLtScored
        rw [if_pos hlt]
      refine ⟨a :: b :: t, ?_, List.Perm.refl _, ?_⟩
      · simp only [insertDescFallible, hcmp]
      · rw [List.pairwise_cons]
        refine ⟨?_, List.pairwise_cons.mpr hp⟩
        intro x hx
        rcases List.mem_cons.mp hx with rfl | hx
        · exact hlt
        · exact lt_trans (hp.1 x hx) hlt
    · have hcmp : pyLtScored b a = .ok false := by
        unfold pyLtScored
        rw [if_neg (by omega), if_pos hgt]
      obtain ⟨t', ht', hperm, hpair⟩ := ih
        (fun x hx => hne x (List.mem_cons_of_mem b hx)) hp.2
      refine ⟨b :: t', ?_, ?_, ?_⟩
      · simp only [insertDescFallible, hcmp, ht']
      · exact (hperm.cons b).trans (List.Perm.swap a b t)
      · rw [List.pairwise_cons]
        refine ⟨?_, hpair⟩
        intro x hx
        rcases List.mem_cons.mp (hperm.subset hx) with rfl | hx'
        · exact hgt
        · exact hp.1 x hx'

theorem sortDescFallible_ok :
    ∀ l : List (Int × Commit),
      l.Pairwise (fun x y => x.1 ≠ y.1) →
      ∃ l', sortDescFallible l = .ok l' ∧
        l'.Perm l ∧ l'.Pairwise (fun x y => y.1 < x.1) := by
  intro l
  induction l with
  | nil => exact fun _ => ⟨[], rfl, List.Perm.refl _, List.Pairwise.nil⟩
  | cons a t ih =>
    intro hp
    rw [List.pairwise_cons] at hp
    obtain ⟨t', ht', hperm, hpair⟩ := ih hp.2
    have hne : ∀ b ∈ t', b.1 ≠ a.1 := fun b hb hEq =>
      (hp.1 b (hperm.subset hb)) hEq.symm
    obtain ⟨l', hl', hperm', hpair'⟩ := insertDescFallible_ok a t' hne hpair
    refine ⟨l', ?_, hperm'.trans (hperm.cons a), hpair'⟩
    simp only [sortDescFallible, ht', hl']

theorem map_scored_snd (l : List Commit) :
    (l.map fun c => (scoreCommit c, c)).map Prod.snd = l := by
  induction l with
  | nil => rfl
  | cons a t ih => simpa using ih

/-- C2 counterexample: a batch of 51 records whose scores all tie (equal
subjects, distinct hashes) with the default cap of 50 makes the selector
raise `TypeError` from the tuple sort instead of returning exactly 50
records. -/
theorem preprocess_commits_over_cap_not_total :
    preprocess_commits ((List.range 51).map fun i =>
        ⟨toString i, "a", "d", "xy", ""⟩) 50
      = .error .typeError := rfl

/-- C2 (amended): for every input list longer than `max_commits` whose
computed scores are pairwise distinct (so that the tuple sort never has to
compare two commit dicts), the selector returns exactly `max_commits`
records, ordered by strictly descending score, and every returned record's
score is at least the score of every excluded record. -/
theorem preprocess_commits_over_cap_top_scores (commits : List Commit)
    (max_commits : Nat) (hlen : max_commits < commits.length)
    (hd : (commits.map scoreCommit).Pairwise (fun x y => x ≠ y)) :
    ∃ out rest : List Commit,
      preprocess_commits commits max_commits = .ok out ∧
      out.length = max_commits ∧
      out.Pairwise (fun c c' => scoreCommit c' < scoreCommit c) ∧
      (out ++ rest).Perm commits ∧
      ∀ c ∈ out, ∀ c' ∈ rest, scoreCommit c' ≤ scoreCommit c := by
  set scored := commits.map fun c => (scoreCommit c, c) with hscored
  have hdScored : scored.Pairwise (fun x y => x.1 ≠ y.1) := by
    rw [hscored, List.pairwise_map]
    rw [List.pairwise_map] at hd
    exact hd
  obtain ⟨sorted, hsorted, hperm, hpair⟩ := sortDescFallible_ok scored hdScored
  have hfst : ∀ p ∈ sorted, p.1 = scoreCommit p.2 := by
    intro p hp
    have hmem : p ∈ scored := hperm.subset hp
    rw [hscored] at hmem
    obtain ⟨c, _, rfl⟩ := List.mem_map.mp hmem
    rfl
  have hlensorted : sorted.length = commits.length := by
    rw [hperm.length_eq, hscored, List.length_map]
  refine ⟨(sorted.take max_commits).map Prod.snd,
          (sorted.drop max_commits).map Prod.snd, ?_, ?_, ?_, ?_, ?_⟩
  · unfold preprocess_commits
    rw [if_pos hlen, ← hscored, hsorted]
  · rw [List.length_map, List.length_take]
    omega
  · have h1 : (sorted.take max_commits).Pairwise (fun x y => y.1 < x.1) :=
      hpair.sublist (List.take_sublist _ _)
    rw [List.pairwise_map]
    refine h1.imp_of_mem ?_
    intro x y hx hy hxy
    have hx' := hfst x ((List.take_sublist _ _).subset hx)
    have hy' := hfst y ((List.take_sublist _ _).subset hy)
    rw [← hx', ← hy']
    exact hxy
  · rw [← List.map_append, List.take_append_drop]
    have hmapid : scored.map Prod.snd = commits := by
      rw [hscored]
      exact map_scored_snd commits
    exact hmapid ▸ hperm.map Prod.snd
  · intro c hc c' hc'
    obtain ⟨x, hx, rfl⟩ := List.mem_map.mp hc
    obtain ⟨y, hy, rfl⟩ := List.mem_map.mp hc'
    have hsplit := hpair
    rw [← List.take_append_drop max_commits sorted, List.pairwise_append]
      at hsplit
    have hrel : y.1 < x.1 := hsplit.2.2 x hx y hy
    have hx' := hfst x ((List.take_sublist _ _).subset hx)
    have hy' := hfst y ((List.drop_sublist _ _).subset hy)
    rw [← hx', ← hy']
    exact le_of_lt hrel

theorem preprocess_commits_over_cap_top_scores_witness :
    1 < ([⟨"h1", "a", "d", "x", ""⟩, ⟨"h2", "a", "d", "zz", ""⟩] :
        List Commit).length ∧
    (([⟨"h1", "a", "d", "x", ""⟩, ⟨"h2", "a", "d", "zz", ""⟩] :
        List Commit).map scoreCommit).Pairwise (fun x y => x ≠ y) ∧
    ∃ out rest : List Commit,
      preprocess_commits
          [⟨"h1", "a", "d", "x", ""⟩, ⟨"h2", "a", "d", "zz", ""⟩] 1
        = .ok out ∧
      out.length = 1 ∧
      out.Pairwise (fun c c' => scoreCommit c' < scoreCommit c) ∧
      (out ++ rest).Perm
        [⟨"h1", "a", "d", "x", ""⟩, ⟨"h2", "a", "d", "zz", ""⟩] ∧
      ∀ c ∈ out, ∀ c' ∈ rest, scoreCommit c' ≤ scoreCommit c :=
  ⟨by decide, by decide,
    preprocess_commits_over_cap_top_scores
      [⟨"h1", "a", "d", "x", ""⟩, ⟨"h2", "a", "d", "zz", ""⟩] 1
      (by decide) (by decide)⟩

end GitChangelog

namespace GitChangelog

/-! ### Claim about `get_git_commits` parsing (C6) -/

theorem foldl_parseStep_filterMap :
    ∀ (l : List String) (acc : List Commit),
      l.foldl parseStep acc = acc ++ l.filterMap parseChunk := by
  intro l
  induction l with
  | nil => intro acc; simp
  | cons a t ih =>
    intro acc
    cases h : parseChunk a with
    | none => simp [List.foldl_cons, parseStep, h, List.filterMap_cons, ih]
    | some c => simp [List.foldl_cons, parseStep, h, List.filterMap_cons, ih]

/-- C6: the parser splits the raw history output on the sentinel, always
discards the trailing segment of the split, accepts exactly the chunks
whose stripped text has at least four lines — producing a record whose
fields are the first four lines and whose body joins the remaining lines —
and silently drops every chunk with fewer than four lines. -/
theorem git_log_parsing_spec (stdout : String) :
    get_git_commits_parse stdout
      = ((pySplit stdout sentinel).dropLast).filterMap parseChunk ∧
    (∀ chunk : String,
      (pySplit (pyStrip chunk) "\n").length < 4 → parseChunk chunk = none) ∧
    (∀ chunk : String, 4 ≤ (pySplit (pyStrip chunk) "\n").length →
      ∃ c : Commit, parseChunk chunk = some c ∧
        (pySplit (pyStrip chunk) "\n")[0]? = some c.hash ∧
        (pySplit (pyStrip chunk) "\n")[1]? = some c.author ∧
        (pySplit (pyStrip chunk) "\n")[2]? = some c.date ∧
        (pySplit (pyStrip chunk) "\n")[3]? = some c.subject ∧
        c.body = String.intercalate "\n" ((pySplit (pyStrip chunk) "\n").drop 4)) := by
  refine ⟨?_, ?_, ?_⟩
  · exact (foldl_parseStep_filterMap
      ((pySplit stdout sentinel).dropLast) []).trans (List.nil_append _)
  · intro chunk hlt
    unfold parseChunk
    rw [dif_neg (by omega)]
  · intro chunk hge
    unfold parseChunk
    rw [dif_pos hge]
    refine ⟨_, rfl, ?_, ?_, ?_, ?_, ?_⟩
    · rw [List.getElem?_eq_getElem (by omega)]
      rfl
    · rw [List.getElem?_eq_getElem (by omega)]
      rfl
    · rw [List.getElem?_eq_getElem (by omega)]
      rfl
    · rw [List.getElem?_eq_getElem (by omega)]
      rfl
    · show (if 4 < (pySplit (pyStrip chunk) "\n").length then
          String.intercalate "\n" ((pySplit (pyStrip chunk) "\n").drop 4)
        else "") = _
      by_cases h4 : 4 < (pySplit (pyStrip chunk) "\n").length
      · rw [if_pos h4]
      · rw [if_neg h4]
        have hnil : (pySplit (pyStrip chunk) "\n").drop 4 = [] := by
          apply List.drop_eq_nil_of_le
          omega
        rw [hnil]
        rfl

theorem git_log_parsing_spec_witness :
    get_git_commits_parse
        "h1\nal\n2024\nsubj\nbodyA\nbodyB\n----------\nzz\n----------rest"
      = ((pySplit
            "h1\nal\n2024\nsubj\nbodyA\nbodyB\n----------\nzz\n----------rest"
            sentinel).dropLast).filterMap parseChunk ∧
    parseChunk "\nzz\n" = none ∧
    get_git_commits_parse
        "h1\nal\n2024\nsubj\nbodyA\nbodyB\n----------\nzz\n----------rest"
      = [⟨"h1", "al", "2024", "subj", "bodyA\nbodyB"⟩] :=
  ⟨(git_log_parsing_spec _).1,
   (git_log_parsing_spec "").2.1 "\nzz\n" (by decide),
   by decide⟩

end GitChangelog

namespace GitChangelog

/-! ### Claims about `generate_changelog_with_claude` (C7, C9, C10) -/

/-- C7: for every successful response (status < 400) whose parsed body has
the expected shape — a top-level "content" list whose first element carries
a "text" string `T` — the requester returns exactly `T` with every escaped
newline sequence (backslash followed by n) replaced by a literal line
break, and nothing else happens besides the single network call. -/
theorem changelog_text_newline_normalized (status : Nat) (bodyText T : String)
    (textRest : List (String × Json)) (elemRest : List Json)
    (fieldRest : List (String × Json)) (h : status < 400) :
    generate_changelog_with_claude (.got ⟨status, bodyText,
        some (.obj (("content",
          .arr (.obj (("text", .str T) :: textRest) :: elemRest)) :: fieldRest))⟩)
      = ([.netCall], some (pyReplace T escapedNewline "\n")) := by
  have hnot : ¬ 400 ≤ status := by omega
  simp [generate_changelog_with_claude, hnot, parseContinue, extractStep,
    pyInStr, pyGetItemStr, pyGetItemNat, List.lookup]

theorem changelog_text_newline_normalized_witness :
    generate_changelog_with_claude (.got ⟨200, "",
        some (.obj [("content",
          .arr [.obj [("text", .str "# March 2025\\n## New Features")]])])⟩)
      = ([.netCall], some "# March 2025\n## New Features") := by
  have hrep :
      pyReplace "# March 2025\\n## New Features" escapedNewline "\n"
        = "# March 2025\n## New Features" := rfl
  have h := changelog_text_newline_normalized 200 ""
    "# March 2025\\n## New Features" [] [] [] (by omega)
  rw [hrep] at h
  exact h

/-- C9: for every response with an error status code (400 ≤ status < 600,
exactly the range for which `raise_for_status` raises), the requester
prints the raw response body first, then enters the generic exception
handler (whose status/body prints are skipped because an error response is
falsy), and exits with code 1; the trace contains exactly one network call,
so nothing is retried. -/
theorem error_status_prints_body_then_exits (r : HttpResponse)
    (h1 : 400 ≤ r.status) (h2 : r.status < 600) :
    generate_changelog_with_claude (.got r)
      = ([.netCall, .print ("Error response body: " ++ r.text),
          .printApiError, .exitCode 1], none) ∧
    (generate_changelog_with_claude (.got r)).1.countP
        (fun e =>
          match e with
          | .netCall => true
          | _ => false) = 1 := by
  have hmain : generate_changelog_with_claude (.got r)
      = ([.netCall, .print ("Error response body: " ++ r.text),
          .printApiError, .exitCode 1], none) := by
    have hnot : ¬ r.status < 400 := by omega
    simp [generate_changelog_with_claude, h1, h2, handlerTrace, hnot]
  refine ⟨hmain, ?_⟩
  rw [hmain]
  rfl

theorem error_status_prints_body_then_exits_witness :
    generate_changelog_with_claude
        (.got ⟨500, "\x7b\"error\":\"rate_limited\"\x7d", none⟩)
      = ([.netCall,
          .print ("Error response body: " ++ "\x7b\"error\":\"rate_limited\"\x7d"),
          .printApiError, .exitCode 1], none) :=
  (error_status_prints_body_then_exits
    ⟨500, "\x7b\"error\":\"rate_limited\"\x7d", none⟩
    (by decide) (by decide)).1

/-- C10: the malformed-response check looks only at the presence of the
top-level "content" key. On a successful response whose "content" maps to
an empty list the chain `result["content"][0]` raises an uncaught
IndexError, and when the first element lacks a "text" field the lookup
raises an uncaught KeyError; in both cases the pretty-printed diagnostic
dump branch is never reached (no dump event appears in the trace). -/
theorem content_only_check_uncaught_errors (status : Nat) (bodyText : String)
    (innerFields : List (String × Json)) (elemRest : List Json)
    (fieldRest fieldRest' : List (String × Json)) (h : status < 400)
    (hnotext : innerFields.lookup "text" = none) :
    generate_changelog_with_claude (.got ⟨status, bodyText,
        some (.obj (("content", .arr []) :: fieldRest))⟩)
      = ([.netCall, .uncaught .indexError], none) ∧
    generate_changelog_with_claude (.got ⟨status, bodyText,
        some (.obj (("content",
          .arr (.obj innerFields :: elemRest)) :: fieldRest'))⟩)
      = ([.netCall, .uncaught .keyError], none) ∧
    (generate_changelog_with_claude (.got ⟨status, bodyText,
        some (.obj (("content", .arr []) :: fieldRest))⟩)).1.countP
        (fun e =>
          match e with
          | .printRespDump _ => true
          | _ => false) = 0 ∧
    (generate_changelog_with_claude (.got ⟨status, bodyText,
        some (.obj (("content",
          .arr (.obj innerFields :: elemRest)) :: fieldRest'))⟩)).1.countP
        (fun e =>
          match e with
          | .printRespDump _ => true
          | _ => false) = 0 := by
  have hnot : ¬ 400 ≤ status := by omega
  have hempty : generate_changelog_with_claude (.got ⟨status, bodyText,
      some (.obj (("content", .arr []) :: fieldRest))⟩)
      = ([.netCall, .uncaught .indexError], none) := by
    simp [generate_changelog_with_claude, hnot, parseContinue, extractStep,
      pyInStr, pyGetItemStr, pyGetItemNat, List.lookup]
  have hnotext' : generate_changelog_with_claude (.got ⟨status, bodyText,
      some (.obj (("content",
        .arr (.obj innerFields :: elemRest)) :: fieldRest'))⟩)
      = ([.netCall, .uncaught .keyError], none) := by
    simp [generate_changelog_with_claude, hnot, parseContinue, extractStep,
      pyInStr, pyGetItemStr, pyGetItemNat, List.lookup, hnotext]
  refine ⟨hempty, hnotext', ?_, ?_⟩
  · rw [hempty]
    rfl
  · rw [hnotext']
    rfl

theorem content_only_check_uncaught_errors_witness :
    generate_changelog_with_claude (.got ⟨200, "",
        some (.obj [("content", .arr [])])⟩)
      = ([.netCall, .uncaught .indexError], none) ∧
    generate_changelog_with_claude (.got ⟨200, "",
        some (.obj [("content", .arr [.obj [("type", .str "text-block")]])])⟩)
      = ([.netCall, .uncaught .keyError], none) :=
  ⟨(content_only_check_uncaught_errors 200 "" [("type", Json.str "text-block")]
      [] [] [] (by omega) rfl).1,
   (content_only_check_uncaught_errors 200 "" [("type", Json.str "text-block")]
      [] [] [] (by omega) rfl).2.1⟩

/-! ### Claim about `main` (C8) -/

/-- C8: whenever the history source yields zero records — which, by the
spec's model of the external history command, includes every n ≤ 0 — the
run prints the "No commits found." message after the fetching line, exits
with code 0, and its trace contains no network call. -/
theorem no_commits_exit_zero_no_network (history : Int → List Commit)
    (hist0 : historyEmptyForNonpos history) (n : Int) (o : TransportOutcome)
    (h : n ≤ 0 ∨ history n = []) :
    mainTrace n (history n) o
      = [.print ("Fetching the last " ++ toString n ++ " commits..."),
         .print "No commits found.", .exitCode 0] ∧
    Ev.netCall ∉ mainTrace n (history n) o := by
  have hempty : history n = [] := by
    rcases h with hn | he
    · exact hist0 n hn
    · exact he
  have hmain : mainTrace n (history n) o
      = [.print ("Fetching the last " ++ toString n ++ " commits..."),
         .print "No commits found.", .exitCode 0] := by
    rw [hempty]
    rfl
  refine ⟨hmain, ?_⟩
  rw [hmain]
  simp

theorem no_commits_exit_zero_no_network_witness :
    mainTrace 0 ((fun _ : Int => ([] : List Commit)) 0) .failed
      = [.print ("Fetching the last " ++ toString (0 : Int) ++ " commits..."),
         .print "No commits found.", .exitCode 0] ∧
    Ev.netCall ∉ mainTrace 0 ((fun _ : Int => ([] : List Commit)) 0) .failed :=
  no_commits_exit_zero_no_network (fun _ => []) (fun _ _ => rfl) 0 .failed
    (Or.inl (by omega))

end GitChangelog
